import Mathlib

/-!
# RTGTest register operands and instruction encoders

A shallow embedding of `lib/Dialect/RTGTest/IR/RTGTestOps.cpp` (register
operations `IntegerRegisterOp`, `FloatRegisterOp`, `VectorRegisterOp` and the
encoders `TestInstrAOp::getBinary`, `TestInstrBOp::getBinary`) together with the
LLVM value types they use (`APInt`, `BitVector`).

Machine integers are mathematical integers with explicit reduction modulo
`2^32` wherever the C++ code converts to `unsigned`.
-/

namespace RTGTest

/-! ## Machine integers -/

/-- The C++ type that `getNumber()` returns.  It is fixed by the TableGen
declaration of the `number` attribute, which is not part of the sources; the
code compares `getNumber() < 0`, so the type is signed.  MLIR generates
`int32_t` for a signed 32-bit attribute and `int64_t` for a signed 64-bit one;
the two differ in how C++ compares the number with an `unsigned` constant, so
the type is a parameter of every operation below. -/
inductive NumberType where
  | int32
  | int64
  deriving DecidableEq, Repr

/-- Smallest value of the number type. -/
def NumberType.minValue : NumberType → Int
  | .int32 => -2147483648
  | .int64 => -9223372036854775808

/-- Largest value of the number type. -/
def NumberType.maxValue : NumberType → Int
  | .int32 => 2147483647
  | .int64 => 9223372036854775807

/-- The value `n` is representable in the number type. -/
def NumberType.fits (ty : NumberType) (n : Int) : Prop :=
  ty.minValue ≤ n ∧ n ≤ ty.maxValue

instance (ty : NumberType) (n : Int) : Decidable (ty.fits n) := by
  unfold NumberType.fits; infer_instance

/-- Conversion of a signed value to the 32-bit type `unsigned`: reduction
modulo `2^32`. -/
def toUnsigned (n : Int) : Nat := (n % 4294967296).toNat

/-- The C++ comparison `number > c` where `c` has type `unsigned`.  For an
`int32_t` number both sides are converted to `unsigned`; for an `int64_t`
number the constant is converted to `int64_t` and the comparison is signed. -/
def NumberType.gtUnsigned (ty : NumberType) (number : Int) (c : Nat) : Bool :=
  match ty with
  | .int32 => decide (toUnsigned number > c)
  | .int64 => decide (number > (c : Int))

/-- The C++ comparison `number < c` where `c` has type `unsigned`; conversions
as for `gtUnsigned`. -/
def NumberType.ltUnsigned (ty : NumberType) (number : Int) (c : Nat) : Bool :=
  match ty with
  | .int32 => decide (toUnsigned number < c)
  | .int64 => decide (number < (c : Int))

/-- The C++ expression `number - c` (`c` of type `unsigned`) returned from a
function whose result type is `unsigned`.  For `int32_t` the subtraction is
done in `unsigned`; for `int64_t` it is done in `int64_t` and the result is
converted on return.  Both are the difference reduced modulo `2^32`. -/
def NumberType.subUnsigned (ty : NumberType) (number : Int) (c : Nat) : Nat :=
  match ty with
  | .int32 => (toUnsigned number + 4294967296 - c) % 4294967296
  | .int64 => toUnsigned (number - (c : Int))

/-- Conversion of an `unsigned` value to the number type, as done by
`setNumber(reg)`: values from `2^31` on wrap to negative `int32_t` values,
every value is representable in `int64_t`. -/
def NumberType.ofUnsigned (ty : NumberType) (reg : Nat) : Int :=
  match ty with
  | .int32 => if reg < 2147483648 then (reg : Int) else (reg : Int) - 4294967296
  | .int64 => (reg : Int)

/-! ## LLVM value types -/

/-- The LLVM type `llvm::APInt`: a bit-vector of `BitWidth` bits holding the
unsigned value `VAL`. -/
structure APInt where
  BitWidth : Nat
  VAL : Nat
  isLt : VAL < 2 ^ BitWidth

/-- The constructor `APInt(numBits, val)` with `val` a 64-bit unsigned value:
the bits of `val` that do not fit in `numBits` bits are dropped. -/
def APInt.ofUInt64 (numBits val : Nat) : APInt :=
  ⟨numBits, val % 2 ^ numBits, Nat.mod_lt _ (Nat.two_pow_pos numBits)⟩

/-- The method `APInt::concat`: the bits of `this` become the most significant
bits of the result and those of `NewLSB` the least significant ones,
`(VAL << NewLSB.BitWidth) | NewLSB.VAL` at `BitWidth + NewLSB.BitWidth`
bits. -/
def APInt.concat (self NewLSB : APInt) : APInt :=
  ⟨self.BitWidth + NewLSB.BitWidth, (self.VAL <<< NewLSB.BitWidth) ||| NewLSB.VAL, by
    have h1 : self.VAL <<< NewLSB.BitWidth < 2 ^ (self.BitWidth + NewLSB.BitWidth) := by
      rw [Nat.shiftLeft_eq, Nat.pow_add]
      exact Nat.mul_lt_mul_of_pos_right self.isLt (Nat.two_pow_pos _)
    have h2 : NewLSB.VAL < 2 ^ (self.BitWidth + NewLSB.BitWidth) :=
      Nat.lt_of_lt_of_le NewLSB.isLt (Nat.pow_le_pow_right (by decide) (Nat.le_add_left _ _))
    exact Nat.or_lt_two_pow h1 h2⟩

/-- The method `APInt::extractBits(numBits, bitPosition)`: the `numBits` bits
from position `bitPosition` on (bit 0 is the least significant one),
`(VAL >> bitPosition)` cut to `numBits` bits. -/
def APInt.extractBits (self : APInt) (numBits bitPosition : Nat) : APInt :=
  ⟨numBits, (self.VAL >>> bitPosition) % 2 ^ numBits, Nat.mod_lt _ (Nat.two_pow_pos numBits)⟩

/-- The LLVM type `llvm::BitVector`: `Bits.length` is the size, element `i` is
bit `i`. -/
structure BitVector where
  Bits : List Bool
  deriving DecidableEq, Repr

/-- The constructor `BitVector(s)`: `s` bits, all clear. -/
def BitVector.ofSize (s : Nat) : BitVector := ⟨List.replicate s false⟩

/-- The method `BitVector::size`. -/
def BitVector.size (bv : BitVector) : Nat := bv.Bits.length

/-- The method `BitVector::test`, with a position outside the vector read as a
clear bit. -/
def BitVector.test (bv : BitVector) (Idx : Nat) : Bool := bv.Bits.getD Idx false

/-- The method `BitVector::set(Idx)`: sets bit `Idx`.  A position outside the
vector is an access out of bounds (`none`). -/
def BitVector.set (bv : BitVector) (Idx : Nat) : Option BitVector :=
  if Idx < bv.size then some ⟨bv.Bits.set Idx true⟩ else none

/-- The method `BitVector::set(I, E)`: sets the bits of `[I, E)`.  A backwards
range or one that ends past the size is an access out of bounds (`none`). -/
def BitVector.setRange (bv : BitVector) (I E : Nat) : Option BitVector :=
  if I ≤ E ∧ E ≤ bv.size then
    some ⟨bv.Bits.enum.map fun ib => ib.2 || (decide (I ≤ ib.1) && decide (ib.1 < E))⟩
  else none

/-- The method `BitVector::set_bits`: the positions of the set bits, in
increasing order. -/
def BitVector.set_bits (bv : BitVector) : List Nat :=
  (List.range bv.size).filter bv.test

/-! ## Instruction encoders -/

/-- `TestInstrAOp::getBinary`: `none` when `operands[0]` or `operands[1]` does
not exist. -/
def TestInstrAOp.getBinary (operands : List APInt) : Option APInt :=
  match operands[0]?, operands[1]? with
  | some op0, some op1 => some (((APInt.ofUInt64 7 0b1110001).concat op0).concat op1)
  | _, _ => none

/-- `TestInstrBOp::getBinary`: `none` when one of `operands[0]`, `operands[1]`,
`operands[2]` does not exist. -/
def TestInstrBOp.getBinary (operands : List APInt) : Option APInt :=
  match operands[0]?, operands[1]?, operands[2]? with
  | some op0, some op1, some op2 =>
    some (((((APInt.ofUInt64 7 0b1110000).concat op0).concat op1).concat op2).concat
      (APInt.ofUInt64 9 0))
  | _, _, _ => none

/-! ## The register enumeration -/

/-- Modelled from the spec: the enumeration `RTGTestRegisters` is declared in a
TableGen file that is not part of the sources.  The spec's descriptor table
gives the integer registers the slots 0 to 3, the float registers 4 to 9, the
vector registers 10 and 11, and `MAX` the size 12 of the register file; the
verifier messages of the source name the same bounds. -/
inductive RTGTestRegisters where
  | i_0 | i_1 | i_2 | i_3
  | f_0 | f_1 | f_2 | f_3 | f_4 | f_5
  | v_0 | v_1
  | MAX
  deriving DecidableEq, Repr

/-- The C++ `static_cast<unsigned>` of an enumerator: its position. -/
def RTGTestRegisters.toNat : RTGTestRegisters → Nat
  | .i_0 => 0 | .i_1 => 1 | .i_2 => 2 | .i_3 => 3
  | .f_0 => 4 | .f_1 => 5 | .f_2 => 6 | .f_3 => 7 | .f_4 => 8 | .f_5 => 9
  | .v_0 => 10 | .v_1 => 11
  | .MAX => 12

/-! ## Register operations -/

/-- An `IntegerRegisterOp`: its only state is the `number` attribute. -/
structure IntegerRegisterOp where
  number : Int
  deriving DecidableEq, Repr

/-- A `FloatRegisterOp`. -/
structure FloatRegisterOp where
  number : Int
  deriving DecidableEq, Repr

/-- A `VectorRegisterOp`. -/
structure VectorRegisterOp where
  number : Int
  deriving DecidableEq, Repr

/-- The result of `verify()`: `success()` or the message given to
`emitOpError`. -/
abbrev LogicalResult := Except String Unit

instance : DecidableEq LogicalResult := fun a b =>
  match a, b with
  | .ok (), .ok () => isTrue rfl
  | .error m, .error m2 =>
    if h : m = m2 then isTrue (by rw [h]) else isFalse (fun e => h (Except.error.inj e))
  | .ok (), .error _ => isFalse (fun e => Except.noConfusion e)
  | .error _, .ok () => isFalse (fun e => Except.noConfusion e)

/-- `IntegerRegisterOp::getClassIndex`: `return getNumber();` with result type
`unsigned`. -/
def IntegerRegisterOp.getClassIndex (_ty : NumberType) (op : IntegerRegisterOp) : Nat :=
  toUnsigned op.number

/-- `IntegerRegisterOp::getClassIndexBinary`. -/
def IntegerRegisterOp.getClassIndexBinary (ty : NumberType) (op : IntegerRegisterOp) : APInt :=
  APInt.ofUInt64 2 (op.getClassIndex ty)

/-- `IntegerRegisterOp::getRegisterAssembly`. -/
def IntegerRegisterOp.getRegisterAssembly (ty : NumberType) (op : IntegerRegisterOp) : String :=
  "i" ++ toString (op.getClassIndex ty)

/-- `IntegerRegisterOp::getAllowedRegs`.  The argument of `set` is converted
to `unsigned`. -/
def IntegerRegisterOp.getAllowedRegs (_ty : NumberType) (op : IntegerRegisterOp) :
    Option BitVector :=
  let allowed := BitVector.ofSize RTGTestRegisters.MAX.toNat
  if op.number < 0 then allowed.setRange 0 4
  else allowed.set (toUnsigned op.number)

/-- `IntegerRegisterOp::getFixedReg`: `~0U` is `2^32 - 1`. -/
def IntegerRegisterOp.getFixedReg (_ty : NumberType) (op : IntegerRegisterOp) : Nat :=
  if op.number < 0 then 4294967295 else toUnsigned op.number

/-- `IntegerRegisterOp::setFixedReg`. -/
def IntegerRegisterOp.setFixedReg (ty : NumberType) (_op : IntegerRegisterOp) (reg : Nat) :
    IntegerRegisterOp :=
  ⟨ty.ofUnsigned reg⟩

/-- `IntegerRegisterOp::verify`. -/
def IntegerRegisterOp.verify (ty : NumberType) (op : IntegerRegisterOp) : LogicalResult :=
  if ty.gtUnsigned op.number RTGTestRegisters.i_3.toNat then
    .error "'number' must be smaller than 4"
  else
    .ok ()

/-- `FloatRegisterOp::getClassIndex`: `getNumber() - f_0`. -/
def FloatRegisterOp.getClassIndex (ty : NumberType) (op : FloatRegisterOp) : Nat :=
  ty.subUnsigned op.number RTGTestRegisters.f_0.toNat

/-- `FloatRegisterOp::getClassIndexBinary`. -/
def FloatRegisterOp.getClassIndexBinary (ty : NumberType) (op : FloatRegisterOp) : APInt :=
  APInt.ofUInt64 2 (op.getClassIndex ty)

/-- `FloatRegisterOp::getRegisterAssembly`. -/
def FloatRegisterOp.getRegisterAssembly (ty : NumberType) (op : FloatRegisterOp) : String :=
  "f" ++ toString (op.getClassIndex ty)

/-- `FloatRegisterOp::getAllowedRegs`.  The argument of `set` is converted
to `unsigned`. -/
def FloatRegisterOp.getAllowedRegs (_ty : NumberType) (op : FloatRegisterOp) :
    Option BitVector :=
  let allowed := BitVector.ofSize RTGTestRegisters.MAX.toNat
  if op.number < 0 then allowed.setRange 4 10
  else allowed.set (toUnsigned op.number)

/-- `FloatRegisterOp::getFixedReg`: `~0U` is `2^32 - 1`. -/
def FloatRegisterOp.getFixedReg (_ty : NumberType) (op : FloatRegisterOp) : Nat :=
  if op.number < 0 then 4294967295 else toUnsigned op.number

/-- `FloatRegisterOp::setFixedReg`. -/
def FloatRegisterOp.setFixedReg (ty : NumberType) (_op : FloatRegisterOp) (reg : Nat) :
    FloatRegisterOp :=
  ⟨ty.ofUnsigned reg⟩

/-- `FloatRegisterOp::verify`. -/
def FloatRegisterOp.verify (ty : NumberType) (op : FloatRegisterOp) : LogicalResult :=
  if ty.gtUnsigned op.number RTGTestRegisters.f_5.toNat ||
      ty.ltUnsigned op.number RTGTestRegisters.f_0.toNat then
    .error "'number' must be smaller than 10 and greater than 3"
  else
    .ok ()

/-- `VectorRegisterOp::getClassIndex`: `getNumber() - v_0`. -/
def VectorRegisterOp.getClassIndex (ty : NumberType) (op : VectorRegisterOp) : Nat :=
  ty.subUnsigned op.number RTGTestRegisters.v_0.toNat

/-- `VectorRegisterOp::getClassIndexBinary`. -/
def VectorRegisterOp.getClassIndexBinary (ty : NumberType) (op : VectorRegisterOp) : APInt :=
  APInt.ofUInt64 1 (op.getClassIndex ty)

/-- `VectorRegisterOp::getRegisterAssembly`. -/
def VectorRegisterOp.getRegisterAssembly (ty : NumberType) (op : VectorRegisterOp) : String :=
  "v" ++ toString (op.getClassIndex ty)

/-- `VectorRegisterOp::getAllowedRegs`: here the negative branch sets the bit
at `number` (converted to `unsigned`) and the other branch the range. -/
def VectorRegisterOp.getAllowedRegs (_ty : NumberType) (op : VectorRegisterOp) :
    Option BitVector :=
  let allowed := BitVector.ofSize RTGTestRegisters.MAX.toNat
  if op.number < 0 then allowed.set (toUnsigned op.number)
  else allowed.setRange 10 12

/-- `VectorRegisterOp::getFixedReg`: `~0U` is `2^32 - 1`. -/
def VectorRegisterOp.getFixedReg (_ty : NumberType) (op : VectorRegisterOp) : Nat :=
  if op.number < 0 then 4294967295 else toUnsigned op.number

/-- `VectorRegisterOp::setFixedReg`. -/
def VectorRegisterOp.setFixedReg (ty : NumberType) (_op : VectorRegisterOp) (reg : Nat) :
    VectorRegisterOp :=
  ⟨ty.ofUnsigned reg⟩

/-- `VectorRegisterOp::verify`. -/
def VectorRegisterOp.verify (ty : NumberType) (op : VectorRegisterOp) : LogicalResult :=
  if ty.gtUnsigned op.number RTGTestRegisters.v_1.toNat ||
      ty.ltUnsigned op.number RTGTestRegisters.v_0.toNat then
    .error "'number' must be smaller than 12 and greater than 9"
  else
    .ok ()

/-! ## The three kinds behind one interface -/

/-- The three register operations. -/
inductive RegisterKind where
  | Integer
  | Float
  | Vector
  deriving DecidableEq, Repr

/-- A register operation of any kind: the kind selects the class whose methods
are called. -/
structure RegisterOp where
  kind : RegisterKind
  number : Int
  deriving DecidableEq, Repr

/-- First enumerator of the kind in `RTGTestRegisters`. -/
def RegisterKind.first : RegisterKind → RTGTestRegisters
  | .Integer => .i_0
  | .Float => .f_0
  | .Vector => .v_0

/-- Last enumerator of the kind in `RTGTestRegisters`. -/
def RegisterKind.last : RegisterKind → RTGTestRegisters
  | .Integer => .i_3
  | .Float => .f_5
  | .Vector => .v_1

/-- Dispatch of `verify()` to the class of the operation. -/
def RegisterOp.verify (ty : NumberType) (op : RegisterOp) : LogicalResult :=
  match op.kind with
  | .Integer => IntegerRegisterOp.verify ty ⟨op.number⟩
  | .Float => FloatRegisterOp.verify ty ⟨op.number⟩
  | .Vector => VectorRegisterOp.verify ty ⟨op.number⟩

/-- Dispatch of `getClassIndex()` to the class of the operation. -/
def RegisterOp.getClassIndex (ty : NumberType) (op : RegisterOp) : Nat :=
  match op.kind with
  | .Integer => IntegerRegisterOp.getClassIndex ty ⟨op.number⟩
  | .Float => FloatRegisterOp.getClassIndex ty ⟨op.number⟩
  | .Vector => VectorRegisterOp.getClassIndex ty ⟨op.number⟩

/-- Dispatch of `getClassIndexBinary()` to the class of the operation. -/
def RegisterOp.getClassIndexBinary (ty : NumberType) (op : RegisterOp) : APInt :=
  match op.kind with
  | .Integer => IntegerRegisterOp.getClassIndexBinary ty ⟨op.number⟩
  | .Float => FloatRegisterOp.getClassIndexBinary ty ⟨op.number⟩
  | .Vector => VectorRegisterOp.getClassIndexBinary ty ⟨op.number⟩

/-- Dispatch of `getAllowedRegs()` to the class of the operation. -/
def RegisterOp.getAllowedRegs (ty : NumberType) (op : RegisterOp) : Option BitVector :=
  match op.kind with
  | .Integer => IntegerRegisterOp.getAllowedRegs ty ⟨op.number⟩
  | .Float => FloatRegisterOp.getAllowedRegs ty ⟨op.number⟩
  | .Vector => VectorRegisterOp.getAllowedRegs ty ⟨op.number⟩

/-- Dispatch of `getFixedReg()` to the class of the operation. -/
def RegisterOp.getFixedReg (ty : NumberType) (op : RegisterOp) : Nat :=
  match op.kind with
  | .Integer => IntegerRegisterOp.getFixedReg ty ⟨op.number⟩
  | .Float => FloatRegisterOp.getFixedReg ty ⟨op.number⟩
  | .Vector => VectorRegisterOp.getFixedReg ty ⟨op.number⟩

/-- Dispatch of `setFixedReg(reg)` to the class of the operation; the kind of
the operation stays what it is. -/
def RegisterOp.setFixedReg (ty : NumberType) (op : RegisterOp) (reg : Nat) : RegisterOp :=
  match op.kind with
  | .Integer => ⟨.Integer, (IntegerRegisterOp.setFixedReg ty ⟨op.number⟩ reg).number⟩
  | .Float => ⟨.Float, (FloatRegisterOp.setFixedReg ty ⟨op.number⟩ reg).number⟩
  | .Vector => ⟨.Vector, (VectorRegisterOp.setFixedReg ty ⟨op.number⟩ reg).number⟩

/-- Dispatch of `getRegisterAssembly()` to the class of the operation. -/
def RegisterOp.getRegisterAssembly (ty : NumberType) (op : RegisterOp) : String :=
  match op.kind with
  | .Integer => IntegerRegisterOp.getRegisterAssembly ty ⟨op.number⟩
  | .Float => FloatRegisterOp.getRegisterAssembly ty ⟨op.number⟩
  | .Vector => VectorRegisterOp.getRegisterAssembly ty ⟨op.number⟩

/-- Bit width that `getClassIndexBinary()` of the kind passes to `APInt`. -/
def RegisterKind.indexWidth : RegisterKind → Nat
  | .Integer => 2
  | .Float => 2
  | .Vector => 1

/-! ## Label resources -/

/-- The default constructor `APInt()`: one bit, value zero. -/
def APInt.default : APInt := ⟨1, 0, by decide⟩

/-- The C `assert(cond)`: when `NDEBUG` is defined the statement is empty and
execution continues; otherwise a false condition aborts the program
(`none`). -/
def cassert (NDEBUG : Bool) (cond : Bool) : Option Unit :=
  if NDEBUG || cond then some () else none

/-- A `LabelDeclOp` of the RTG dialect: it carries the format string. -/
structure LabelDeclOp where
  formatString : String
  deriving DecidableEq, Repr

/-- `LabelDeclOp::getBinary` (`lib/Dialect/RTG/IR/RTGOps.cpp`):
`assert(false && "must not be used for label resources"); return APInt();`. -/
def LabelDeclOp.getBinary (NDEBUG : Bool) (_op : LabelDeclOp) : Option APInt :=
  (cassert NDEBUG false).bind fun _ => some APInt.default

/-- `LabelDeclOp::printAssembly`: the format string is written to the stream
unchanged. -/
def LabelDeclOp.printAssembly (op : LabelDeclOp) (stream : String) : String :=
  stream ++ op.formatString

/-! ## Theorems: validation and class index -/

/-- C1: for every register kind and every slot inside the kind's range
(Integer 0..3, Float 4..9, Vector 10..11), `verify()` on an operation with
`number = slot` succeeds and `getClassIndex()` returns the slot minus the start
of the range (0, 4 and 10). -/
theorem verify_ok_and_classIndex_of_in_range (ty : NumberType) (k : RegisterKind) (slot : Int)
    (hlo : (k.first.toNat : Int) ≤ slot) (hhi : slot ≤ (k.last.toNat : Int)) :
    RegisterOp.verify ty ⟨k, slot⟩ = .ok () ∧
    (RegisterOp.getClassIndex ty ⟨k, slot⟩ : Int) = slot - (k.first.toNat : Int) ∧
    (k.first.toNat, k.last.toNat) =
      (match k with
       | .Integer => (0, 3)
       | .Float => (4, 9)
       | .Vector => (10, 11)) := by
  cases ty <;> cases k <;>
    simp only [RegisterKind.first, RegisterKind.last, RTGTestRegisters.toNat] at hlo hhi <;>
    simp [RegisterOp.verify, RegisterOp.getClassIndex, IntegerRegisterOp.verify,
      FloatRegisterOp.verify, VectorRegisterOp.verify, IntegerRegisterOp.getClassIndex,
      FloatRegisterOp.getClassIndex, VectorRegisterOp.getClassIndex, NumberType.gtUnsigned,
      NumberType.ltUnsigned, NumberType.subUnsigned, toUnsigned, RegisterKind.first,
      RegisterKind.last, RTGTestRegisters.toNat] <;>
    omega

/-- Witness of C1 at the float register with number 7. -/
theorem verify_ok_and_classIndex_of_in_range_witness :
    RegisterOp.verify .int32 ⟨.Float, 7⟩ = .ok () ∧
    (RegisterOp.getClassIndex .int32 ⟨.Float, 7⟩ : Int) = 7 - 4 :=
  have h := verify_ok_and_classIndex_of_in_range .int32 .Float 7 (by decide) (by decide)
  ⟨h.1, h.2.1⟩

/-- C2: for every register kind and every non-negative slot strictly outside
the kind's range, `verify()` fails with the message that names the kind's
bound.  `verify()` only returns its result: the number of the operation is not
written. -/
theorem verify_error_of_out_of_range (ty : NumberType) (k : RegisterKind) (slot : Int)
    (hfits : ty.fits slot) (hnonneg : 0 ≤ slot)
    (hout : slot < (k.first.toNat : Int) ∨ (k.last.toNat : Int) < slot) :
    RegisterOp.verify ty ⟨k, slot⟩ =
      .error (match k with
        | .Integer => "'number' must be smaller than 4"
        | .Float => "'number' must be smaller than 10 and greater than 3"
        | .Vector => "'number' must be smaller than 12 and greater than 9") := by
  cases ty <;> cases k <;>
    simp only [RegisterKind.first, RegisterKind.last, RTGTestRegisters.toNat,
      NumberType.fits, NumberType.minValue, NumberType.maxValue] at hfits hout <;>
    simp only [RegisterOp.verify, IntegerRegisterOp.verify, FloatRegisterOp.verify,
      VectorRegisterOp.verify, NumberType.gtUnsigned, NumberType.ltUnsigned, toUnsigned,
      RTGTestRegisters.toNat] <;>
    rw [if_pos] <;>
    simp <;>
    omega

/-- Witness of C2 at the integer register with number 4. -/
theorem verify_error_of_out_of_range_witness :
    RegisterOp.verify .int32 ⟨.Integer, 4⟩ = .error "'number' must be smaller than 4" :=
  verify_error_of_out_of_range .int32 .Integer 4 (by decide) (by decide) (by decide)

/-- C3: `verify()` rejects the float and the vector operation whose number is
the negative value -1, whatever the number type is; the operation with a
negative number is the one `getAllowedRegs()` and `getFixedReg()` treat as not
yet assigned. -/
theorem verify_rejects_unassigned :
    ∀ ty : NumberType,
      RegisterOp.verify ty ⟨.Float, -1⟩ =
        .error "'number' must be smaller than 10 and greater than 3" ∧
      RegisterOp.verify ty ⟨.Vector, -1⟩ =
        .error "'number' must be smaller than 12 and greater than 9" ∧
      RegisterOp.getFixedReg ty ⟨.Float, -1⟩ = 4294967295 ∧
      RegisterOp.getFixedReg ty ⟨.Vector, -1⟩ = 4294967295 := by
  intro ty
  cases ty <;> decide

/-- C4: the float operations with number 8 and 9 pass `verify()`, their class
indices are 4 and 5, and `getClassIndexBinary()` is the 2-bit vector with value
0 and 1: the class index does not fit in the bit width. -/
theorem classIndexBinary_float_truncates :
    ∀ ty : NumberType,
      RegisterOp.verify ty ⟨.Float, 8⟩ = .ok () ∧
      RegisterOp.getClassIndex ty ⟨.Float, 8⟩ = 4 ∧
      (RegisterOp.getClassIndexBinary ty ⟨.Float, 8⟩).BitWidth = 2 ∧
      (RegisterOp.getClassIndexBinary ty ⟨.Float, 8⟩).VAL = 0 ∧
      RegisterOp.verify ty ⟨.Float, 9⟩ = .ok () ∧
      RegisterOp.getClassIndex ty ⟨.Float, 9⟩ = 5 ∧
      (RegisterOp.getClassIndexBinary ty ⟨.Float, 9⟩).BitWidth = 2 ∧
      (RegisterOp.getClassIndexBinary ty ⟨.Float, 9⟩).VAL = 1 := by
  intro ty
  cases ty <;> decide

/-! ## Theorems: instruction encoders -/

/-- The value of a concatenation: the first operand shifted past the second,
plus the second. -/
theorem APInt.concat_VAL (x y : APInt) :
    (x.concat y).VAL = x.VAL * 2 ^ y.BitWidth + y.VAL := by
  show (x.VAL <<< y.BitWidth) ||| y.VAL = x.VAL * 2 ^ y.BitWidth + y.VAL
  rw [Nat.shiftLeft_eq, Nat.mul_comm, ← Nat.mul_add_lt_is_or y.isLt]

/-- The width of a concatenation is the sum of the widths. -/
theorem APInt.concat_BitWidth (x y : APInt) :
    (x.concat y).BitWidth = x.BitWidth + y.BitWidth := rfl

/-- Dropping the bits of the second operand from a concatenation gives back
the first operand. -/
theorem APInt.concat_VAL_div (x y : APInt) :
    (x.concat y).VAL / 2 ^ y.BitWidth = x.VAL := by
  rw [APInt.concat_VAL, Nat.add_comm, Nat.add_mul_div_right _ _ (Nat.two_pow_pos _),
    Nat.div_eq_of_lt y.isLt, Nat.zero_add]

/-- The low bits of a concatenation are the second operand. -/
theorem APInt.concat_VAL_mod (x y : APInt) :
    (x.concat y).VAL % 2 ^ y.BitWidth = y.VAL := by
  rw [APInt.concat_VAL, Nat.add_comm, Nat.add_mul_mod_self_right, Nat.mod_eq_of_lt y.isLt]

/-- C5: for all operands `op0` (width `w0`) and `op1` (width `w1`),
`TestInstrAOp::getBinary` returns a bit-vector of width `7 + w0 + w1` with
value `0b1110001 * 2^(w0+w1) + op0 * 2^w1 + op1`; the operands `APInt(2,1)` and
`APInt(2,3)` give the 11-bit value `0b11100010111`. -/
theorem testInstrA_getBinary_spec (op0 op1 : APInt) (rest : List APInt) :
    (∃ r, TestInstrAOp.getBinary (op0 :: op1 :: rest) = some r ∧
      r.BitWidth = 7 + op0.BitWidth + op1.BitWidth ∧
      r.VAL = 0b1110001 * 2 ^ (op0.BitWidth + op1.BitWidth) + op0.VAL * 2 ^ op1.BitWidth
        + op1.VAL) ∧
    (TestInstrAOp.getBinary [APInt.ofUInt64 2 1, APInt.ofUInt64 2 3]).map
      (fun r => (r.BitWidth, r.VAL)) = some (11, 0b11100010111) := by
  refine ⟨⟨((APInt.ofUInt64 7 0b1110001).concat op0).concat op1,
    by simp [TestInstrAOp.getBinary], rfl, ?_⟩, by decide⟩
  rw [APInt.concat_VAL, APInt.concat_VAL]
  have h : (APInt.ofUInt64 7 0b1110001).VAL = 0b1110001 := by decide
  rw [h, Nat.pow_add]
  ring

/-- C6: for all operands `op0`, `op1`, `op2` of widths `w0`, `w1`, `w2`,
`TestInstrBOp::getBinary` returns a bit-vector of width `7 + w0 + w1 + w2 + 9`
whose 7 most significant bits are `0b1110000` and whose 9 least significant
bits are zero. -/
theorem testInstrB_getBinary_spec (op0 op1 op2 : APInt) (rest : List APInt) :
    ∃ r, TestInstrBOp.getBinary (op0 :: op1 :: op2 :: rest) = some r ∧
      r.BitWidth = 7 + op0.BitWidth + op1.BitWidth + op2.BitWidth + 9 ∧
      r.VAL / 2 ^ (op0.BitWidth + op1.BitWidth + op2.BitWidth + 9) = 0b1110000 ∧
      r.VAL % 2 ^ 9 = 0 := by
  refine ⟨((((APInt.ofUInt64 7 0b1110000).concat op0).concat op1).concat op2).concat
    (APInt.ofUInt64 9 0), by simp [TestInstrBOp.getBinary], rfl, ?_, ?_⟩
  · have hpad : (APInt.ofUInt64 9 0).BitWidth = 9 := rfl
    have hop : (APInt.ofUInt64 7 0b1110000).VAL = 0b1110000 := by decide
    have e : ∀ a : Nat, a / 2 ^ (op0.BitWidth + op1.BitWidth + op2.BitWidth + 9) =
        a / 2 ^ 9 / 2 ^ op2.BitWidth / 2 ^ op1.BitWidth / 2 ^ op0.BitWidth := by
      intro a
      rw [Nat.div_div_eq_div_mul, Nat.div_div_eq_div_mul, Nat.div_div_eq_div_mul,
        ← Nat.pow_add, ← Nat.pow_add, ← Nat.pow_add]
      congr 2
      omega
    rw [e]
    have h1 := APInt.concat_VAL_div
      ((((APInt.ofUInt64 7 0b1110000).concat op0).concat op1).concat op2) (APInt.ofUInt64 9 0)
    rw [hpad] at h1
    rw [h1, APInt.concat_VAL_div, APInt.concat_VAL_div, APInt.concat_VAL_div, hop]
  · have h := APInt.concat_VAL_mod
      ((((APInt.ofUInt64 7 0b1110000).concat op0).concat op1).concat op2) (APInt.ofUInt64 9 0)
    exact h

/-! ## Theorems: allowed registers -/

/-- A bit that tests as set lies inside the vector. -/
theorem BitVector.lt_size_of_test (bv : BitVector) (p : Nat) (h : bv.test p = true) :
    p < bv.size := by
  by_contra hge
  have hle : bv.Bits.length ≤ p := Nat.le_of_not_lt hge
  simp [BitVector.test, List.getD, List.getElem?_eq_none hle] at h

/-- The allowed registers of an integer operation with a negative number. -/
theorem integer_getAllowedRegs_neg (ty : NumberType) (number : Int)
    (hneg : number < 0) :
    IntegerRegisterOp.getAllowedRegs ty ⟨number⟩ =
      some ⟨[true, true, true, true, false, false, false, false, false, false, false,
        false]⟩ := by
  simp only [IntegerRegisterOp.getAllowedRegs, if_pos hneg]
  decide

/-- The allowed registers of a float operation with a negative number. -/
theorem float_getAllowedRegs_neg (ty : NumberType) (number : Int)
    (hneg : number < 0) :
    FloatRegisterOp.getAllowedRegs ty ⟨number⟩ =
      some ⟨[false, false, false, false, true, true, true, true, true, true, false,
        false]⟩ := by
  simp only [FloatRegisterOp.getAllowedRegs, if_pos hneg]
  decide

/-- The allowed registers of an integer operation with a number in `[0, 12)`. -/
theorem integer_getAllowedRegs_nonneg (ty : NumberType) (number : Int)
    (h0 : 0 ≤ number) (hmax : number < 12) :
    ∃ bv, IntegerRegisterOp.getAllowedRegs ty ⟨number⟩ = some bv ∧
      bv.size = 12 ∧ bv.set_bits = [number.toNat] := by
  interval_cases number <;> exact ⟨_, rfl, by decide, by decide⟩

/-- The allowed registers of a float operation with a number in `[0, 12)`. -/
theorem float_getAllowedRegs_nonneg (ty : NumberType) (number : Int)
    (h0 : 0 ≤ number) (hmax : number < 12) :
    ∃ bv, FloatRegisterOp.getAllowedRegs ty ⟨number⟩ = some bv ∧
      bv.size = 12 ∧ bv.set_bits = [number.toNat] := by
  interval_cases number <;> exact ⟨_, rfl, by decide, by decide⟩

/-- The allowed registers of a vector operation with a non-negative number. -/
theorem vector_getAllowedRegs_nonneg (ty : NumberType) (number : Int)
    (h0 : 0 ≤ number) :
    VectorRegisterOp.getAllowedRegs ty ⟨number⟩ =
      some ⟨[false, false, false, false, false, false, false, false, false, false, true,
        true]⟩ := by
  have hneg : ¬ number < 0 := by omega
  simp only [VectorRegisterOp.getAllowedRegs, if_neg hneg]
  decide

/-- C7: for the Integer and Float kinds, `getAllowedRegs()` is a bit-vector of
size `MAX = 12` whose set bits are exactly the kind's range when the number is
negative (0..3 for Integer, 4..9 for Float), and exactly the single position
`number` when the number is non-negative and below `MAX`. -/
theorem getAllowedRegs_integer_float (ty : NumberType) (k : RegisterKind) (number : Int)
    (hk : k = .Integer ∨ k = .Float) (hmax : number < 12) :
    ∃ bv, RegisterOp.getAllowedRegs ty ⟨k, number⟩ = some bv ∧
      bv.size = 12 ∧
      bv.set_bits =
        (if number < 0 then
          (match k with
           | .Integer => [0, 1, 2, 3]
           | .Float => [4, 5, 6, 7, 8, 9]
           | .Vector => [])
         else [number.toNat]) := by
  by_cases hneg : number < 0
  · rw [if_pos hneg]
    rcases hk with rfl | rfl
    · exact ⟨_, integer_getAllowedRegs_neg ty number hneg, rfl, by decide⟩
    · exact ⟨_, float_getAllowedRegs_neg ty number hneg, rfl, by decide⟩
  · rw [if_neg hneg]
    have h0 : 0 ≤ number := by omega
    rcases hk with rfl | rfl
    · exact integer_getAllowedRegs_nonneg ty number h0 hmax
    · exact float_getAllowedRegs_nonneg ty number h0 hmax

/-- Witness of C7 at the integer register with number 2. -/
theorem getAllowedRegs_integer_float_witness :
    ∃ bv, RegisterOp.getAllowedRegs .int32 ⟨.Integer, 2⟩ = some bv ∧
      bv.size = 12 ∧ bv.set_bits = [2] :=
  getAllowedRegs_integer_float .int32 .Integer 2 (Or.inl rfl) (by decide)

/-- C8: for every vector operation with a non-negative number,
`getAllowedRegs()` is the bit-vector of size 12 whose set bits are 10 and 11,
whatever the number is; it is not the single position `number`. -/
theorem getAllowedRegs_vector_assigned (ty : NumberType) (number : Int) (hnonneg : 0 ≤ number) :
    ∃ bv, RegisterOp.getAllowedRegs ty ⟨.Vector, number⟩ = some bv ∧
      bv.size = 12 ∧ bv.set_bits = [10, 11] ∧ bv.set_bits ≠ [number.toNat] := by
  refine ⟨_, vector_getAllowedRegs_nonneg ty number hnonneg, rfl, by decide, ?_⟩
  intro h
  have hlen := congrArg List.length h
  rw [List.length_singleton] at hlen
  exact absurd hlen (by decide)

/-- Witness of C8 at the vector register with number 10. -/
theorem getAllowedRegs_vector_assigned_witness :
    ∃ bv, RegisterOp.getAllowedRegs .int32 ⟨.Vector, 10⟩ = some bv ∧
      bv.size = 12 ∧ bv.set_bits = [10, 11] ∧ bv.set_bits ≠ [(10 : Int).toNat] :=
  getAllowedRegs_vector_assigned .int32 10 (by decide)

/-- C9: for the Integer and Float kinds and an operation with a negative
number, `getAllowedRegs()` returns a non-empty set, and for every position `s`
in it the operation passes `verify()` after `setFixedReg(s)`. -/
theorem verify_ok_of_setFixedReg_allowed (ty : NumberType) (k : RegisterKind) (number : Int)
    (hk : k = .Integer ∨ k = .Float) (hneg : number < 0) :
    ∃ bv, RegisterOp.getAllowedRegs ty ⟨k, number⟩ = some bv ∧
      (∃ s, bv.test s = true) ∧
      ∀ s, bv.test s = true →
        RegisterOp.verify ty (RegisterOp.setFixedReg ty ⟨k, number⟩ s) = .ok () := by
  rcases hk with rfl | rfl
  · refine ⟨_, integer_getAllowedRegs_neg ty number hneg, ⟨0, by decide⟩, ?_⟩
    intro s hs
    have hlt : s < 12 := BitVector.lt_size_of_test _ s hs
    cases ty <;> interval_cases s <;> first | rfl | exact absurd hs (by decide)
  · refine ⟨_, float_getAllowedRegs_neg ty number hneg, ⟨4, by decide⟩, ?_⟩
    intro s hs
    have hlt : s < 12 := BitVector.lt_size_of_test _ s hs
    cases ty <;> interval_cases s <;> first | rfl | exact absurd hs (by decide)

/-- Witness of C9 at a float operation with number -1. -/
theorem verify_ok_of_setFixedReg_allowed_witness :
    ∃ bv, RegisterOp.getAllowedRegs .int64 ⟨.Float, -1⟩ = some bv ∧
      (∃ s, bv.test s = true) ∧
      ∀ s, bv.test s = true →
        RegisterOp.verify .int64 (RegisterOp.setFixedReg .int64 ⟨.Float, -1⟩ s) = .ok () :=
  verify_ok_of_setFixedReg_allowed .int64 .Float (-1) (Or.inr rfl) (by decide)

/-- C10, as stated, fails: for the integer operation with number 12, which
`verify()` rejects, `getAllowedRegs()` sets bit 12 of a bit-vector of size 12,
an access out of bounds; for the vector operation with number -1 it sets the
bit at `2^32 - 1`, out of bounds as well. -/
theorem getAllowedRegs_integer_12_out_of_bounds :
    RegisterOp.getAllowedRegs .int32 ⟨.Integer, 12⟩ = none ∧
    RegisterOp.getAllowedRegs .int64 ⟨.Integer, 12⟩ = none ∧
    RegisterOp.getAllowedRegs .int32 ⟨.Vector, -1⟩ = none ∧
    RegisterOp.getAllowedRegs .int64 ⟨.Vector, -1⟩ = none ∧
    NumberType.int32.fits 12 ∧
    ¬ (∃ bv, RegisterOp.getAllowedRegs .int32 ⟨.Integer, 12⟩ = some bv ∧ bv.size = 12 ∧
        ∀ p, bv.test p = true → p < 12) := by
  refine ⟨by decide, by decide, by decide, by decide, by decide, ?_⟩
  rintro ⟨bv, h, _⟩
  have hnone : RegisterOp.getAllowedRegs .int32 ⟨.Integer, 12⟩ = none := by decide
  rw [hnone] at h
  exact Option.noConfusion h

/-- C10, amended: for every Integer or Float operation whose number is negative
or below `MAX = 12`, and for every Vector operation whose number is
non-negative, `getAllowedRegs()` returns a bit-vector of size 12, every set bit
of which is at a position below 12; no position outside the vector is
accessed. -/
theorem getAllowedRegs_in_bounds (ty : NumberType) (k : RegisterKind) (number : Int)
    (h : ((k = .Integer ∨ k = .Float) ∧ number < 12) ∨ (k = .Vector ∧ 0 ≤ number)) :
    ∃ bv, RegisterOp.getAllowedRegs ty ⟨k, number⟩ = some bv ∧
      bv.size = 12 ∧ ∀ p, bv.test p = true → p < 12 := by
  have key : ∃ bv, RegisterOp.getAllowedRegs ty ⟨k, number⟩ = some bv ∧ bv.size = 12 := by
    rcases h with ⟨hk, hmax⟩ | ⟨rfl, h0⟩
    · by_cases hneg : number < 0
      · rcases hk with rfl | rfl
        · exact ⟨_, integer_getAllowedRegs_neg ty number hneg, rfl⟩
        · exact ⟨_, float_getAllowedRegs_neg ty number hneg, rfl⟩
      · have h0 : 0 ≤ number := by omega
        rcases hk with rfl | rfl
        · obtain ⟨bv, h1, h2, _⟩ := integer_getAllowedRegs_nonneg ty number h0 hmax
          exact ⟨bv, h1, h2⟩
        · obtain ⟨bv, h1, h2, _⟩ := float_getAllowedRegs_nonneg ty number h0 hmax
          exact ⟨bv, h1, h2⟩
    · exact ⟨_, vector_getAllowedRegs_nonneg ty number h0, rfl⟩
  obtain ⟨bv, h1, h2⟩ := key
  refine ⟨bv, h1, h2, ?_⟩
  intro p hp
  have := BitVector.lt_size_of_test bv p hp
  omega

/-- Witness of the amended C10 at a vector operation with number 3. -/
theorem getAllowedRegs_in_bounds_witness :
    ∃ bv, RegisterOp.getAllowedRegs .int32 ⟨.Vector, 3⟩ = some bv ∧
      bv.size = 12 ∧ ∀ p, bv.test p = true → p < 12 :=
  getAllowedRegs_in_bounds .int32 .Vector 3 (Or.inr ⟨rfl, by decide⟩)

/-! ## Theorems: the register file, mnemonics and fixed registers -/

/-- For a representable non-negative number, `verify()` succeeds exactly when
the number lies between the first and the last register of the kind. -/
theorem verify_ok_iff_in_range (ty : NumberType) (k : RegisterKind) (n : Int)
    (hfits : ty.fits n) (hnonneg : 0 ≤ n) :
    RegisterOp.verify ty ⟨k, n⟩ = .ok () ↔
      (k.first.toNat : Int) ≤ n ∧ n ≤ (k.last.toNat : Int) := by
  cases ty <;> cases k <;>
    simp only [NumberType.fits, NumberType.minValue, NumberType.maxValue] at hfits <;>
    simp [RegisterOp.verify, IntegerRegisterOp.verify, FloatRegisterOp.verify,
      VectorRegisterOp.verify, NumberType.gtUnsigned, NumberType.ltUnsigned, toUnsigned,
      RegisterKind.first, RegisterKind.last, RTGTestRegisters.toNat] <;>
    omega

/-- C11: the three kinds own disjoint, contiguous ranges that cover the
register file: for a number `n` with `0 ≤ n < 12` exactly one kind's `verify()`
accepts `n` (Integer for 0..3, Float for 4..9, Vector for 10..11), and for
`n ≥ 12` no kind's `verify()` accepts it. -/
theorem verify_partitions_register_file (ty : NumberType) (n : Int)
    (hfits : ty.fits n) (hnonneg : 0 ≤ n) :
    (n < 12 → ∃! k : RegisterKind, RegisterOp.verify ty ⟨k, n⟩ = .ok ()) ∧
    (12 ≤ n → ∀ k : RegisterKind, RegisterOp.verify ty ⟨k, n⟩ ≠ .ok ()) ∧
    (RegisterOp.verify ty ⟨.Integer, n⟩ = .ok () ↔ n ≤ 3) ∧
    (RegisterOp.verify ty ⟨.Float, n⟩ = .ok () ↔ 4 ≤ n ∧ n ≤ 9) ∧
    (RegisterOp.verify ty ⟨.Vector, n⟩ = .ok () ↔ 10 ≤ n ∧ n ≤ 11) := by
  have hI := verify_ok_iff_in_range ty .Integer n hfits hnonneg
  have hF := verify_ok_iff_in_range ty .Float n hfits hnonneg
  have hV := verify_ok_iff_in_range ty .Vector n hfits hnonneg
  simp only [RegisterKind.first, RegisterKind.last, RTGTestRegisters.toNat] at hI hF hV
  refine ⟨?_, ?_, ?_, ?_, ?_⟩
  · intro hlt
    by_cases h3 : n ≤ 3
    · refine ⟨.Integer, hI.2 ⟨by omega, by omega⟩, ?_⟩
      intro k hk
      cases k
      · rfl
      · have := hF.1 hk; omega
      · have := hV.1 hk; omega
    · by_cases h9 : n ≤ 9
      · refine ⟨.Float, hF.2 ⟨by omega, by omega⟩, ?_⟩
        intro k hk
        cases k
        · have := hI.1 hk; omega
        · rfl
        · have := hV.1 hk; omega
      · refine ⟨.Vector, hV.2 ⟨by omega, by omega⟩, ?_⟩
        intro k hk
        cases k
        · have := hI.1 hk; omega
        · have := hF.1 hk; omega
        · rfl
  · intro hge k hk
    cases k
    · have := hI.1 hk; omega
    · have := hF.1 hk; omega
    · have := hV.1 hk; omega
  · constructor
    · intro h; have := hI.1 h; omega
    · intro h; exact hI.2 ⟨by omega, by omega⟩
  · constructor
    · intro h; have := hF.1 h; omega
    · intro h; exact hF.2 ⟨by omega, by omega⟩
  · constructor
    · intro h; have := hV.1 h; omega
    · intro h; exact hV.2 ⟨by omega, by omega⟩

/-- Witness of C11 at the number 7, which only the Float kind accepts. -/
theorem verify_partitions_register_file_witness :
    ((7 : Int) < 12 → ∃! k : RegisterKind, RegisterOp.verify .int32 ⟨k, 7⟩ = .ok ()) ∧
    (RegisterOp.verify .int32 ⟨.Float, 7⟩ = .ok () ↔ (4 : Int) ≤ 7 ∧ (7 : Int) ≤ 9) :=
  have h := verify_partitions_register_file .int32 7 (by decide) (by decide)
  ⟨h.1, h.2.2.2.1⟩

/-- C12: for every kind and every operation with a non-negative number that
passes `verify()`, `getRegisterAssembly()` is the kind's prefix (`i`, `f`, `v`)
followed by the decimal text of `getClassIndex()`, the number minus the first
register of the kind; Integer 2 gives `i2`, Float 7 gives `f3`, Vector 10 gives
`v0`. -/
theorem getRegisterAssembly_of_verified (ty : NumberType) (k : RegisterKind) (n : Int)
    (hfits : ty.fits n) (hnonneg : 0 ≤ n) (hv : RegisterOp.verify ty ⟨k, n⟩ = .ok ()) :
    RegisterOp.getRegisterAssembly ty ⟨k, n⟩ =
      (match k with
       | .Integer => "i"
       | .Float => "f"
       | .Vector => "v") ++ Nat.repr (RegisterOp.getClassIndex ty ⟨k, n⟩) ∧
    RegisterOp.getRegisterAssembly ty ⟨k, n⟩ =
      (match k with
       | .Integer => "i"
       | .Float => "f"
       | .Vector => "v") ++ Nat.repr (n - (k.first.toNat : Int)).toNat ∧
    RegisterOp.getRegisterAssembly ty ⟨.Integer, 2⟩ = "i2" ∧
    RegisterOp.getRegisterAssembly ty ⟨.Float, 7⟩ = "f3" ∧
    RegisterOp.getRegisterAssembly ty ⟨.Vector, 10⟩ = "v0" := by
  have hr := (verify_ok_iff_in_range ty k n hfits hnonneg).1 hv
  refine ⟨?_, ?_, ?_, ?_, ?_⟩
  · cases k <;> rfl
  · cases k <;>
      simp only [RegisterKind.first, RegisterKind.last, RTGTestRegisters.toNat] at hr <;>
      obtain ⟨h1, h2⟩ := hr <;>
      simp only [Nat.cast_ofNat, Nat.cast_zero] at h1 h2 <;>
      interval_cases n <;> cases ty <;> rfl
  · cases ty <;> rfl
  · cases ty <;> rfl
  · cases ty <;> rfl

/-- Witness of C12 at the float register with number 7. -/
theorem getRegisterAssembly_of_verified_witness :
    RegisterOp.getRegisterAssembly .int32 ⟨.Float, 7⟩ =
      "f" ++ Nat.repr (RegisterOp.getClassIndex .int32 ⟨.Float, 7⟩) :=
  (getRegisterAssembly_of_verified .int32 .Float 7 (by decide) (by decide) (by decide)).1

/-- C14, as stated, fails when the number is an `int32_t`: `setFixedReg(2^31)`
stores the negative number `-2^31`, so the operation is not assigned afterwards
and `getFixedReg()` returns `~0U`, not the slot. -/
theorem setFixedReg_int32_wraps :
    (RegisterOp.setFixedReg .int32 ⟨.Integer, 0⟩ 2147483648).number = -2147483648 ∧
    RegisterOp.getFixedReg .int32 (RegisterOp.setFixedReg .int32 ⟨.Integer, 0⟩ 2147483648)
      = 4294967295 ∧
    RegisterOp.getFixedReg .int32 (RegisterOp.setFixedReg .int32 ⟨.Integer, 0⟩ 2147483648)
      ≠ 2147483648 := by
  decide

/-- C14, amended: for every kind, every prior state and every `unsigned` slot
that the number type holds as a non-negative value (every slot below `2^31`
for `int32_t`, every slot for `int64_t`), `setFixedReg(slot)` stores the slot
whatever the number was: afterwards the number is the slot, it is not negative,
`getFixedReg()` returns the slot, and the kind is the same. -/
theorem setFixedReg_spec (ty : NumberType) (op : RegisterOp) (slot : Nat)
    (hu : slot < 4294967296) (hrep : (slot : Int) ≤ ty.maxValue) :
    (RegisterOp.setFixedReg ty op slot).number = (slot : Int) ∧
    0 ≤ (RegisterOp.setFixedReg ty op slot).number ∧
    RegisterOp.getFixedReg ty (RegisterOp.setFixedReg ty op slot) = slot ∧
    (RegisterOp.setFixedReg ty op slot).kind = op.kind := by
  obtain ⟨k, n⟩ := op
  have hnum : (RegisterOp.setFixedReg ty ⟨k, n⟩ slot).number = (slot : Int) := by
    cases ty <;> cases k <;>
      simp only [NumberType.maxValue] at hrep <;>
      simp only [RegisterOp.setFixedReg, IntegerRegisterOp.setFixedReg,
        FloatRegisterOp.setFixedReg, VectorRegisterOp.setFixedReg, NumberType.ofUnsigned] <;>
      first
        | rfl
        | (rw [if_pos (by omega)])
  have hkind : (RegisterOp.setFixedReg ty ⟨k, n⟩ slot).kind = k := by
    cases k <;> rfl
  refine ⟨hnum, by rw [hnum]; omega, ?_, hkind⟩
  have hn : ¬ ((slot : Int) < 0) := by omega
  generalize RegisterOp.setFixedReg ty ⟨k, n⟩ slot = op2 at hnum hkind
  obtain ⟨k2, n2⟩ := op2
  simp only at hnum hkind
  subst hnum hkind
  cases k2 <;>
    simp only [RegisterOp.getFixedReg, IntegerRegisterOp.getFixedReg,
      FloatRegisterOp.getFixedReg, VectorRegisterOp.getFixedReg, if_neg hn, toUnsigned] <;>
    omega

/-- Witness of the amended C14: an unassigned vector operation fixed to 11. -/
theorem setFixedReg_spec_witness :
    (RegisterOp.setFixedReg .int32 ⟨.Vector, -1⟩ 11).number = ((11 : Nat) : Int) ∧
    0 ≤ (RegisterOp.setFixedReg .int32 ⟨.Vector, -1⟩ 11).number ∧
    RegisterOp.getFixedReg .int32 (RegisterOp.setFixedReg .int32 ⟨.Vector, -1⟩ 11) = 11 ∧
    (RegisterOp.setFixedReg .int32 ⟨.Vector, -1⟩ 11).kind = .Vector :=
  setFixedReg_spec .int32 ⟨.Vector, -1⟩ 11 (by decide) (by decide)

/-- C15, as stated, fails: on the operations with number -1 `getClassIndex()`
and `getRegisterAssembly()` return a value, the number converted to `unsigned`
(less the first register of the kind) and its decimal text. -/
theorem getClassIndex_unassigned_returns :
    RegisterOp.getClassIndex .int32 ⟨.Integer, -1⟩ = 4294967295 ∧
    RegisterOp.getClassIndex .int64 ⟨.Integer, -1⟩ = 4294967295 ∧
    RegisterOp.getRegisterAssembly .int32 ⟨.Integer, -1⟩ = "i4294967295" ∧
    RegisterOp.getRegisterAssembly .int64 ⟨.Integer, -1⟩ = "i4294967295" ∧
    RegisterOp.getClassIndex .int32 ⟨.Float, -1⟩ = 4294967291 ∧
    RegisterOp.getClassIndex .int64 ⟨.Float, -1⟩ = 4294967291 ∧
    RegisterOp.getRegisterAssembly .int32 ⟨.Float, -1⟩ = "f4294967291" ∧
    RegisterOp.getRegisterAssembly .int32 ⟨.Vector, -1⟩ = "v4294967285" := by
  refine ⟨by decide, by decide, by rfl, by rfl, by decide, by decide, by rfl, by rfl⟩

/-- C15, amended: for every kind, `getClassIndex()` and `getRegisterAssembly()`
on an operation with a negative number do not fail: `getClassIndex()` returns
the number less the first register of the kind, reduced modulo `2^32`, and
`getRegisterAssembly()` returns the kind's prefix followed by the decimal text
of that value. -/
theorem getClassIndex_unassigned_wraps (ty : NumberType) (k : RegisterKind) (n : Int)
    (hfits : ty.fits n) (hneg : n < 0) :
    (RegisterOp.getClassIndex ty ⟨k, n⟩ : Int) = (n - (k.first.toNat : Int)) % 4294967296 ∧
    RegisterOp.getRegisterAssembly ty ⟨k, n⟩ =
      (match k with
       | .Integer => "i"
       | .Float => "f"
       | .Vector => "v") ++
        Nat.repr ((n - (k.first.toNat : Int)) % 4294967296).toNat := by
  have hci : (RegisterOp.getClassIndex ty ⟨k, n⟩ : Int) =
      (n - (k.first.toNat : Int)) % 4294967296 := by
    cases ty <;> cases k <;>
      simp only [NumberType.fits, NumberType.minValue, NumberType.maxValue] at hfits <;>
      simp only [RegisterOp.getClassIndex, IntegerRegisterOp.getClassIndex,
        FloatRegisterOp.getClassIndex, VectorRegisterOp.getClassIndex,
        NumberType.subUnsigned, toUnsigned, RegisterKind.first, RTGTestRegisters.toNat] <;>
      omega
  refine ⟨hci, ?_⟩
  have hnat : RegisterOp.getClassIndex ty ⟨k, n⟩ =
      ((n - (k.first.toNat : Int)) % 4294967296).toNat := by
    rw [← hci]; rfl
  rw [← hnat]
  cases k <;> rfl

/-- Witness of the amended C15 at the float operation with number -1. -/
theorem getClassIndex_unassigned_wraps_witness :
    (RegisterOp.getClassIndex .int32 ⟨.Float, -1⟩ : Int) =
      (-1 - (RegisterKind.Float.first.toNat : Int)) % 4294967296 :=
  (getClassIndex_unassigned_wraps .int32 .Float (-1) (by decide) (by decide)).1

/-- C16, as stated, fails in a build without assertions (`NDEBUG` defined):
there `LabelDeclOp::getBinary` returns the default `APInt`, one bit of value
zero, to the caller. -/
theorem LabelDeclOp_getBinary_ndebug_returns :
    (LabelDeclOp.getBinary true ⟨"label"⟩).map (fun r => (r.BitWidth, r.VAL)) = some (1, 0) := by
  decide

/-- C16, amended: in a build with assertions enabled, `getBinary()` of every
label fails at its assertion and returns no bit-vector to the caller. -/
theorem LabelDeclOp_getBinary_asserts (op : LabelDeclOp) :
    LabelDeclOp.getBinary false op = none ∧
    ∀ r : APInt, LabelDeclOp.getBinary false op ≠ some r := by
  have h : LabelDeclOp.getBinary false op = none := rfl
  refine ⟨h, ?_⟩
  intro r hr
  rw [h] at hr
  exact Option.noConfusion hr

/-! ## Theorems: widths of the encoded fields -/

/-- C17: the float class index is narrowed by its 2-bit field: the numbers 8
and 9 pass `verify()`, their class indices 4 and 5 are not below `2^2`, and
`getClassIndexBinary()` gives them the fields of the numbers 4 and 5; for the
Integer and the Vector kind `getClassIndexBinary()` is injective on the
registers of the kind. -/
theorem getClassIndexBinary_narrowing (ty : NumberType) :
    (RegisterOp.verify ty ⟨.Float, 8⟩ = .ok () ∧ RegisterOp.verify ty ⟨.Float, 9⟩ = .ok ()) ∧
    (RegisterOp.getClassIndex ty ⟨.Float, 8⟩ = 4 ∧ RegisterOp.getClassIndex ty ⟨.Float, 9⟩ = 5 ∧
      2 ^ RegisterKind.Float.indexWidth = 4) ∧
    ((RegisterOp.getClassIndexBinary ty ⟨.Float, 8⟩).BitWidth = RegisterKind.Float.indexWidth ∧
      (RegisterOp.getClassIndexBinary ty ⟨.Float, 8⟩).VAL =
        (RegisterOp.getClassIndexBinary ty ⟨.Float, 4⟩).VAL ∧
      (RegisterOp.getClassIndexBinary ty ⟨.Float, 9⟩).VAL =
        (RegisterOp.getClassIndexBinary ty ⟨.Float, 5⟩).VAL ∧
      (RegisterOp.getClassIndexBinary ty ⟨.Float, 8⟩).VAL ≠
        RegisterOp.getClassIndex ty ⟨.Float, 8⟩ ∧
      (RegisterOp.getClassIndexBinary ty ⟨.Float, 9⟩).VAL ≠
        RegisterOp.getClassIndex ty ⟨.Float, 9⟩) ∧
    (∀ a b : Int, 0 ≤ a → a ≤ 3 → 0 ≤ b → b ≤ 3 →
      (RegisterOp.getClassIndexBinary ty ⟨.Integer, a⟩).VAL =
        (RegisterOp.getClassIndexBinary ty ⟨.Integer, b⟩).VAL → a = b) ∧
    (∀ a b : Int, 10 ≤ a → a ≤ 11 → 10 ≤ b → b ≤ 11 →
      (RegisterOp.getClassIndexBinary ty ⟨.Vector, a⟩).VAL =
        (RegisterOp.getClassIndexBinary ty ⟨.Vector, b⟩).VAL → a = b) := by
  refine ⟨?_, ?_, ?_, ?_, ?_⟩
  · cases ty <;> decide
  · cases ty <;> decide
  · cases ty <;> decide
  · intro a b ha0 ha3 hb0 hb3
    cases ty <;> interval_cases a <;> interval_cases b <;>
      first
        | (intro _; rfl)
        | (intro h; exact absurd h (by decide))
  · intro a b ha0 ha3 hb0 hb3
    cases ty <;> interval_cases a <;> interval_cases b <;>
      first
        | (intro _; rfl)
        | (intro h; exact absurd h (by decide))

/-- The opcode of a Shape A word: the bits above the two operands. -/
theorem testInstrA_opcode_bits (op0 op1 : APInt) :
    (((APInt.ofUInt64 7 0b1110001).concat op0).concat op1).VAL /
      2 ^ (op0.BitWidth + op1.BitWidth) = 0b1110001 := by
  have hop : (APInt.ofUInt64 7 0b1110001).VAL = 0b1110001 := by decide
  rw [Nat.add_comm op0.BitWidth, Nat.pow_add, ← Nat.div_div_eq_div_mul,
    APInt.concat_VAL_div, APInt.concat_VAL_div, hop]

/-- The opcode of a Shape B word: the bits above the three operands and the
padding. -/
theorem testInstrB_opcode_bits (op0 op1 op2 : APInt) :
    (((((APInt.ofUInt64 7 0b1110000).concat op0).concat op1).concat op2).concat
      (APInt.ofUInt64 9 0)).VAL /
      2 ^ (op0.BitWidth + op1.BitWidth + op2.BitWidth + 9) = 0b1110000 := by
  have hop : (APInt.ofUInt64 7 0b1110000).VAL = 0b1110000 := by decide
  have hpad := APInt.concat_VAL_div
    ((((APInt.ofUInt64 7 0b1110000).concat op0).concat op1).concat op2) (APInt.ofUInt64 9 0)
  have h9 : (APInt.ofUInt64 9 0).BitWidth = 9 := rfl
  rw [h9] at hpad
  have e : op0.BitWidth + op1.BitWidth + op2.BitWidth + 9 =
      9 + (op2.BitWidth + (op1.BitWidth + op0.BitWidth)) := by omega
  rw [e, Nat.pow_add, Nat.pow_add, Nat.pow_add, ← Nat.div_div_eq_div_mul,
    ← Nat.div_div_eq_div_mul, ← Nat.div_div_eq_div_mul, hpad,
    APInt.concat_VAL_div, APInt.concat_VAL_div, APInt.concat_VAL_div, hop]

/-- C18, as stated, fails: the width of the result follows the widths of the
operands, and the encoders accept operands of any width: operands of 2 and 2
bits give a Shape A word of 11 bits, operands of 3 and 2 bits one of 12
bits; the Shape B words for operands of 2, 2, 2 and of 3, 2, 2 bits have 22 and
23 bits. -/
theorem getBinary_width_varies :
    (TestInstrAOp.getBinary [APInt.ofUInt64 2 0, APInt.ofUInt64 2 0]).map
      (fun r => r.BitWidth) = some 11 ∧
    (TestInstrAOp.getBinary [APInt.ofUInt64 3 0, APInt.ofUInt64 2 0]).map
      (fun r => r.BitWidth) = some 12 ∧
    (TestInstrBOp.getBinary [APInt.ofUInt64 2 0, APInt.ofUInt64 2 0, APInt.ofUInt64 2 0]).map
      (fun r => r.BitWidth) = some 22 ∧
    (TestInstrBOp.getBinary [APInt.ofUInt64 3 0, APInt.ofUInt64 2 0, APInt.ofUInt64 2 0]).map
      (fun r => r.BitWidth) = some 23 := by
  decide

/-- C18, amended: the width of an encoded instruction is the same for every two
operand lists whose operands have the same widths, position by position: it is
`7 + w0 + w1` for Shape A and `7 + w0 + w1 + w2 + 9` for Shape B. -/
theorem getBinary_width_of_operand_widths (a0 a1 b0 b1 : APInt) (ra rb : List APInt)
    (c0 c1 c2 d0 d1 d2 : APInt) (rc rd : List APInt)
    (ha0 : a0.BitWidth = b0.BitWidth) (ha1 : a1.BitWidth = b1.BitWidth)
    (hc0 : c0.BitWidth = d0.BitWidth) (hc1 : c1.BitWidth = d1.BitWidth)
    (hc2 : c2.BitWidth = d2.BitWidth) :
    (∃ r s, TestInstrAOp.getBinary (a0 :: a1 :: ra) = some r ∧
      TestInstrAOp.getBinary (b0 :: b1 :: rb) = some s ∧
      r.BitWidth = s.BitWidth ∧ r.BitWidth = 7 + a0.BitWidth + a1.BitWidth) ∧
    (∃ r s, TestInstrBOp.getBinary (c0 :: c1 :: c2 :: rc) = some r ∧
      TestInstrBOp.getBinary (d0 :: d1 :: d2 :: rd) = some s ∧
      r.BitWidth = s.BitWidth ∧
      r.BitWidth = 7 + c0.BitWidth + c1.BitWidth + c2.BitWidth + 9) := by
  constructor
  · refine ⟨((APInt.ofUInt64 7 0b1110001).concat a0).concat a1,
      ((APInt.ofUInt64 7 0b1110001).concat b0).concat b1,
      by simp [TestInstrAOp.getBinary], by simp [TestInstrAOp.getBinary], ?_, rfl⟩
    show 7 + a0.BitWidth + a1.BitWidth = 7 + b0.BitWidth + b1.BitWidth
    rw [ha0, ha1]
  · refine ⟨((((APInt.ofUInt64 7 0b1110000).concat c0).concat c1).concat c2).concat
        (APInt.ofUInt64 9 0),
      ((((APInt.ofUInt64 7 0b1110000).concat d0).concat d1).concat d2).concat
        (APInt.ofUInt64 9 0),
      by simp [TestInstrBOp.getBinary], by simp [TestInstrBOp.getBinary], ?_, rfl⟩
    show 7 + c0.BitWidth + c1.BitWidth + c2.BitWidth + 9 =
      7 + d0.BitWidth + d1.BitWidth + d2.BitWidth + 9
    rw [hc0, hc1, hc2]

/-- Witness of the amended C18 at operands of different values and equal
widths. -/
theorem getBinary_width_of_operand_widths_witness :
    (∃ r s, TestInstrAOp.getBinary [APInt.ofUInt64 2 1, APInt.ofUInt64 2 3] = some r ∧
      TestInstrAOp.getBinary [APInt.ofUInt64 2 2, APInt.ofUInt64 2 0] = some s ∧
      r.BitWidth = s.BitWidth ∧ r.BitWidth = 7 + 2 + 2) ∧
    (∃ r s, TestInstrBOp.getBinary [APInt.ofUInt64 2 1, APInt.ofUInt64 2 3, APInt.ofUInt64 1 1]
        = some r ∧
      TestInstrBOp.getBinary [APInt.ofUInt64 2 0, APInt.ofUInt64 2 2, APInt.ofUInt64 1 0]
        = some s ∧
      r.BitWidth = s.BitWidth ∧ r.BitWidth = 7 + 2 + 2 + 1 + 9) :=
  getBinary_width_of_operand_widths (APInt.ofUInt64 2 1) (APInt.ofUInt64 2 3)
    (APInt.ofUInt64 2 2) (APInt.ofUInt64 2 0) [] []
    (APInt.ofUInt64 2 1) (APInt.ofUInt64 2 3) (APInt.ofUInt64 1 1)
    (APInt.ofUInt64 2 0) (APInt.ofUInt64 2 2) (APInt.ofUInt64 1 0) [] []
    rfl rfl rfl rfl rfl

/-! ## Theorems: allowed registers of verified operations, opcodes -/

/-- C19: for every kind and every operation with a non-negative number that
passes `verify()`, the number is a member of `getAllowedRegs()` and `verify()`
accepts every member of that set for the same kind. -/
theorem getAllowedRegs_of_verified (ty : NumberType) (k : RegisterKind) (n : Int)
    (hfits : ty.fits n) (hnonneg : 0 ≤ n) (hv : RegisterOp.verify ty ⟨k, n⟩ = .ok ()) :
    ∃ bv, RegisterOp.getAllowedRegs ty ⟨k, n⟩ = some bv ∧
      bv.test n.toNat = true ∧
      ∀ s : Nat, bv.test s = true → RegisterOp.verify ty ⟨k, (s : Int)⟩ = .ok () := by
  have hr := (verify_ok_iff_in_range ty k n hfits hnonneg).1 hv
  cases k <;>
    simp only [RegisterKind.first, RegisterKind.last, RTGTestRegisters.toNat] at hr <;>
    obtain ⟨h1, h2⟩ := hr <;>
    simp only [Nat.cast_ofNat, Nat.cast_zero] at h1 h2 <;>
    interval_cases n <;>
    refine ⟨_, rfl, by decide, ?_⟩ <;>
    intro s hs <;>
    have hlt : s < 12 := BitVector.lt_size_of_test _ s hs <;>
    interval_cases s <;>
    first
      | exact absurd hs (by decide)
      | (cases ty <;> rfl)

/-- Witness of C19 at the vector register with number 10. -/
theorem getAllowedRegs_of_verified_witness :
    ∃ bv, RegisterOp.getAllowedRegs .int32 ⟨.Vector, 10⟩ = some bv ∧
      bv.test (10 : Int).toNat = true ∧
      ∀ s : Nat, bv.test s = true → RegisterOp.verify .int32 ⟨.Vector, (s : Int)⟩ = .ok () :=
  getAllowedRegs_of_verified .int32 .Vector 10 (by decide) (by decide) (by decide)

/-- C20: a Shape A word and a Shape B word always differ, whatever the widths
and values of their operands: either their widths differ, or the widths are
equal and the 7 most significant bits differ (`0b1110001` and `0b1110000`). -/
theorem getBinary_shapes_differ (a0 a1 : APInt) (ra : List APInt) (b0 b1 b2 : APInt)
    (rb : List APInt) :
    ∃ r s, TestInstrAOp.getBinary (a0 :: a1 :: ra) = some r ∧
      TestInstrBOp.getBinary (b0 :: b1 :: b2 :: rb) = some s ∧
      r ≠ s ∧
      r.VAL / 2 ^ (r.BitWidth - 7) = 0b1110001 ∧
      s.VAL / 2 ^ (s.BitWidth - 7) = 0b1110000 ∧
      (r.BitWidth ≠ s.BitWidth ∨
        (r.BitWidth = s.BitWidth ∧
          r.VAL / 2 ^ (r.BitWidth - 7) ≠ s.VAL / 2 ^ (s.BitWidth - 7))) := by
  have hA := testInstrA_opcode_bits a0 a1
  have hB := testInstrB_opcode_bits b0 b1 b2
  have wA : (((APInt.ofUInt64 7 0b1110001).concat a0).concat a1).BitWidth - 7 =
      a0.BitWidth + a1.BitWidth := by
    show 7 + a0.BitWidth + a1.BitWidth - 7 = a0.BitWidth + a1.BitWidth
    omega
  have wB : (((((APInt.ofUInt64 7 0b1110000).concat b0).concat b1).concat b2).concat
      (APInt.ofUInt64 9 0)).BitWidth - 7 = b0.BitWidth + b1.BitWidth + b2.BitWidth + 9 := by
    show 7 + b0.BitWidth + b1.BitWidth + b2.BitWidth + 9 - 7 =
      b0.BitWidth + b1.BitWidth + b2.BitWidth + 9
    omega
  refine ⟨((APInt.ofUInt64 7 0b1110001).concat a0).concat a1,
    ((((APInt.ofUInt64 7 0b1110000).concat b0).concat b1).concat b2).concat
      (APInt.ofUInt64 9 0),
    by simp [TestInstrAOp.getBinary], by simp [TestInstrBOp.getBinary], ?_, ?_, ?_, ?_⟩
  · intro heq
    have h1 := hA
    rw [← wA, heq, wB, hB] at h1
    exact absurd h1 (by decide)
  · rw [wA]; exact hA
  · rw [wB]; exact hB
  · by_cases hw : (((APInt.ofUInt64 7 0b1110001).concat a0).concat a1).BitWidth =
        (((((APInt.ofUInt64 7 0b1110000).concat b0).concat b1).concat b2).concat
          (APInt.ofUInt64 9 0)).BitWidth
    · refine Or.inr ⟨hw, ?_⟩
      rw [wA, wB, hA, hB]
      decide
    · exact Or.inl hw

/-! ## Theorems: decoding the encoded word -/

/-- Two bit-vectors of the same width and value are equal. -/
theorem APInt.eq_of_BitWidth_VAL (x y : APInt) (hw : x.BitWidth = y.BitWidth)
    (hv : x.VAL = y.VAL) : x = y := by
  cases x
  cases y
  simp only at hw hv
  subst hw hv
  rfl

/-- The low field of a concatenation is its second operand. -/
theorem APInt.extractBits_concat_low (x y : APInt) :
    (x.concat y).extractBits y.BitWidth 0 = y := by
  apply APInt.eq_of_BitWidth_VAL
  · rfl
  · show ((x.concat y).VAL >>> 0) % 2 ^ y.BitWidth = y.VAL
    rw [Nat.shiftRight_zero, APInt.concat_VAL_mod]

/-- A field that lies above the second operand of a concatenation is a field of
the first operand. -/
theorem APInt.extractBits_concat_high (x y : APInt) (numBits pos : Nat) :
    (x.concat y).extractBits numBits (y.BitWidth + pos) = x.extractBits numBits pos := by
  apply APInt.eq_of_BitWidth_VAL
  · rfl
  · show ((x.concat y).VAL >>> (y.BitWidth + pos)) % 2 ^ numBits =
      (x.VAL >>> pos) % 2 ^ numBits
    rw [Nat.shiftRight_eq_div_pow, Nat.shiftRight_eq_div_pow, Nat.pow_add,
      ← Nat.div_div_eq_div_mul, APInt.concat_VAL_div]

/-- The fields of a Shape A word: `[0, w1)` is the second operand and
`[w1, w1 + w0)` the first. -/
theorem testInstrA_fields (op0 op1 : APInt) :
    (((APInt.ofUInt64 7 0b1110001).concat op0).concat op1).extractBits op1.BitWidth 0 = op1 ∧
    (((APInt.ofUInt64 7 0b1110001).concat op0).concat op1).extractBits op0.BitWidth
      op1.BitWidth = op0 := by
  refine ⟨APInt.extractBits_concat_low _ op1, ?_⟩
  have h := APInt.extractBits_concat_high ((APInt.ofUInt64 7 0b1110001).concat op0) op1
    op0.BitWidth 0
  rw [Nat.add_zero] at h
  rw [h]
  exact APInt.extractBits_concat_low _ op0

/-- The fields of a Shape B word: `[9, 9 + w2)` is the third operand,
`[9 + w2, 9 + w2 + w1)` the second and `[9 + w2 + w1, 9 + w2 + w1 + w0)` the
first. -/
theorem testInstrB_fields (op0 op1 op2 : APInt) :
    (((((APInt.ofUInt64 7 0b1110000).concat op0).concat op1).concat op2).concat
      (APInt.ofUInt64 9 0)).extractBits op2.BitWidth 9 = op2 ∧
    (((((APInt.ofUInt64 7 0b1110000).concat op0).concat op1).concat op2).concat
      (APInt.ofUInt64 9 0)).extractBits op1.BitWidth (9 + op2.BitWidth) = op1 ∧
    (((((APInt.ofUInt64 7 0b1110000).concat op0).concat op1).concat op2).concat
      (APInt.ofUInt64 9 0)).extractBits op0.BitWidth (9 + op2.BitWidth + op1.BitWidth)
      = op0 := by
  have hpad : ∀ numBits pos : Nat,
      (((((APInt.ofUInt64 7 0b1110000).concat op0).concat op1).concat op2).concat
        (APInt.ofUInt64 9 0)).extractBits numBits (9 + pos) =
      ((((APInt.ofUInt64 7 0b1110000).concat op0).concat op1).concat op2).extractBits
        numBits pos :=
    fun numBits pos => APInt.extractBits_concat_high _ (APInt.ofUInt64 9 0) numBits pos
  refine ⟨?_, ?_, ?_⟩
  · have h := hpad op2.BitWidth 0
    rw [Nat.add_zero] at h
    rw [h]
    exact APInt.extractBits_concat_low _ op2
  · have h2 := APInt.extractBits_concat_high
      (((APInt.ofUInt64 7 0b1110000).concat op0).concat op1) op2 op1.BitWidth 0
    rw [Nat.add_zero] at h2
    rw [hpad, h2]
    exact APInt.extractBits_concat_low _ op1
  · have h2 := APInt.extractBits_concat_high
      (((APInt.ofUInt64 7 0b1110000).concat op0).concat op1) op2 op0.BitWidth op1.BitWidth
    have h1 := APInt.extractBits_concat_high
      ((APInt.ofUInt64 7 0b1110000).concat op0) op1 op0.BitWidth 0
    rw [Nat.add_zero] at h1
    rw [Nat.add_assoc, hpad, h2, h1]
    exact APInt.extractBits_concat_low _ op0

/-- C21: the encoded word can be decoded field by field: from the Shape B word
the bit ranges `[9, 9+w2)`, `[9+w2, 9+w2+w1)` and `[9+w2+w1, 9+w2+w1+w0)` give
back `op2`, `op1` and `op0`, from the Shape A word the ranges `[0, w1)` and
`[w1, w1+w0)` give back `op1` and `op0`; hence, for fixed operand widths, each
encoder is injective in its operands. -/
theorem getBinary_decodes (op0 op1 op2 : APInt) (rest : List APInt) :
    (∃ r, TestInstrAOp.getBinary (op0 :: op1 :: rest) = some r ∧
      r.extractBits op1.BitWidth 0 = op1 ∧
      r.extractBits op0.BitWidth op1.BitWidth = op0) ∧
    (∃ r, TestInstrBOp.getBinary (op0 :: op1 :: op2 :: rest) = some r ∧
      r.extractBits op2.BitWidth 9 = op2 ∧
      r.extractBits op1.BitWidth (9 + op2.BitWidth) = op1 ∧
      r.extractBits op0.BitWidth (9 + op2.BitWidth + op1.BitWidth) = op0) ∧
    (∀ (q0 q1 : APInt) (rest2 : List APInt),
      op0.BitWidth = q0.BitWidth → op1.BitWidth = q1.BitWidth →
      TestInstrAOp.getBinary (op0 :: op1 :: rest) = TestInstrAOp.getBinary (q0 :: q1 :: rest2) →
      op0 = q0 ∧ op1 = q1) ∧
    (∀ (q0 q1 q2 : APInt) (rest2 : List APInt),
      op0.BitWidth = q0.BitWidth → op1.BitWidth = q1.BitWidth → op2.BitWidth = q2.BitWidth →
      TestInstrBOp.getBinary (op0 :: op1 :: op2 :: rest) =
        TestInstrBOp.getBinary (q0 :: q1 :: q2 :: rest2) →
      op0 = q0 ∧ op1 = q1 ∧ op2 = q2) := by
  have eA : ∀ (x y : APInt) (l : List APInt), TestInstrAOp.getBinary (x :: y :: l) =
      some (((APInt.ofUInt64 7 0b1110001).concat x).concat y) := by
    intro x y l
    simp [TestInstrAOp.getBinary]
  have eB : ∀ (x y z : APInt) (l : List APInt), TestInstrBOp.getBinary (x :: y :: z :: l) =
      some (((((APInt.ofUInt64 7 0b1110000).concat x).concat y).concat z).concat
        (APInt.ofUInt64 9 0)) := by
    intro x y z l
    simp [TestInstrBOp.getBinary]
  refine ⟨⟨_, eA op0 op1 rest, testInstrA_fields op0 op1⟩,
    ⟨_, eB op0 op1 op2 rest, testInstrB_fields op0 op1 op2⟩, ?_, ?_⟩
  · intro q0 q1 rest2 h0 h1 heq
    rw [eA, eA] at heq
    have hr := Option.some.inj heq
    obtain ⟨p1, p0⟩ := testInstrA_fields op0 op1
    obtain ⟨s1, s0⟩ := testInstrA_fields q0 q1
    rw [hr, h1] at p1
    rw [hr, h0, h1] at p0
    exact ⟨p0.symm.trans s0, p1.symm.trans s1⟩
  · intro q0 q1 q2 rest2 h0 h1 h2 heq
    rw [eB, eB] at heq
    have hr := Option.some.inj heq
    obtain ⟨p2, p1, p0⟩ := testInstrB_fields op0 op1 op2
    obtain ⟨s2, s1, s0⟩ := testInstrB_fields q0 q1 q2
    rw [hr, h2] at p2
    rw [hr, h1, h2] at p1
    rw [hr, h0, h1, h2] at p0
    exact ⟨p0.symm.trans s0, p1.symm.trans s1, p2.symm.trans s2⟩

end RTGTest
